import Mathlib

/-!
Verification of the backup engine of "daily-backup-software".

The development shallowly embeds the core of the program:

* `src/core/backup_engine.py`: source filtering (`_should_include_file`),
  transfer planning (`_plan_transfers`), the per-file copy step
  (`_execute_local_transfer`) and the execution state machine
  (`_execute_backup`) including pause/resume across sessions;
* `src/connectors/local_target.py`: `_handle_conflict` and `upload_file`;
* `src/core/database.py`: `JobExecution.get_progress_percentage` and
  `DatabaseManager.cleanup_old_executions`.

Modelling conventions:

* file contents are identified with their digests (a `Nat`); the hash is
  collision free, matching the specification's reading of SHA-256
  ("two files are considered identical iff their digests are equal");
* the filesystem maps full path strings to optional contents;
  `none` means the path is absent or unreadable;
* `shutil.copy2` may land corrupted bytes at the temporary file: the digest
  that actually lands is given by an environment function `landed`, so a
  checksum mismatch (simulated corruption) is `landed src` differing from
  the stored source digest;
* the Qt pause/stop signalling is modelled by a `Signal` value saying at
  which checkpoint (loop iteration, or the post-loop check) the worker
  observes a pause request; cancellation is not needed by any claim;
* the unbounded `while target_path.exists()` loop of `_plan_transfers` is
  modelled with an explicit fuel parameter, `none` meaning the loop has not
  terminated within the given fuel;
* `fnmatch.fnmatch` is an abstract parameter of the filtering function: the
  claims about filtering only concern the precedence structure around it.
-/

namespace DailyBackup

/-- Filesystem: full path to stored content digest; `none` = absent. -/
def FS : Type := String → Option Nat

/-- Point update of a filesystem. -/
def FS.upd (fs : FS) (p : String) (v : Option Nat) : FS :=
  fun q => if q = p then v else fs q

/-- Split a character list at every occurrence of a separator (the shape
of `str.split` used on paths and on pattern lists). -/
def splitChar (sep : Char) : List Char → List (List Char)
  | [] => [[]]
  | c :: cs =>
    let r := splitChar sep cs
    if c = sep then [] :: r
    else
      match r with
      | [] => [[c]]
      | h :: t => (c :: h) :: t

/-- `os.path.basename`: the component after the last slash. -/
def basename (p : String) : String :=
  ((splitChar '/' p.toList).getLastD []).asString

/-- Python `str.strip()`: drop whitespace from both ends. -/
def strip (s : String) : String :=
  (((s.toList.dropWhile Char.isWhitespace).reverse.dropWhile Char.isWhitespace).reverse).asString

/-- `pathlib` stem/suffix split of a file name: the suffix starts at the
last dot, provided that dot is neither the first nor the last character;
otherwise the stem is the whole name and the suffix is empty. -/
def splitStemSuffix (name : String) : String × String :=
  let cs := name.toList
  match ((List.range cs.length).filter (fun i => cs.getD i ' ' = '.')).getLast? with
  | some i =>
      if 0 < i && i < cs.length - 1 then
        ((cs.take i).asString, (cs.drop i).asString)
      else (name, "")
  | none => (name, "")

/-! ### `JobExecution.get_progress_percentage` (src/core/database.py) -/

/-- `JobExecution.get_progress_percentage`: returns 0 when `total_files`
is 0, else `min(100, int((processed_files / total_files) * 100))`.
The division is modelled on naturals; the guard and the `min` cap, which
are all the claims concern, do not depend on the rounding of the value. -/
def get_progress_percentage (processed_files total_files : Nat) : Nat :=
  if total_files = 0 then 0
  else min 100 ((processed_files * 100) / total_files)

/-! ### `BackupWorker._should_include_file` (src/core/backup_engine.py) -/

/-- One pattern test of `_should_include_file`: the pattern is stripped;
an empty pattern never matches; otherwise `fnmatch` is tried against the
basename and against the full path. -/
def patternMatches (fnmatch : String → String → Bool) (file_path pat : String) : Bool :=
  let p := strip pat
  p ≠ "" && (fnmatch (basename file_path) p || fnmatch file_path p)

/-- `BackupWorker._should_include_file`: exclude patterns are tested first
and drop the file on any match; then, when the include list is non-empty,
the file is kept iff some include pattern matches; an empty include list
keeps every non-excluded file. -/
def should_include_file (fnmatch : String → String → Bool)
    (file_path : String) (include_patterns exclude_patterns : List String) : Bool :=
  if exclude_patterns.any (patternMatches fnmatch file_path) then
    false
  else if include_patterns.isEmpty then
    true
  else
    include_patterns.any (patternMatches fnmatch file_path)

/-! ### Rename collision loops -/

/-- The shared shape of both rename-collision loops: starting from
`counter`, return the first candidate name `cand counter`, `cand (counter+1)`,
... that the existence predicate reports free, giving up (`none`) after
`fuel` attempts.  `LocalTargetConnector._handle_conflict` instantiates
`fuel := 9999`; the planner loop of `_plan_transfers` has no cap in the
source, so there the fuel only models its possible divergence. -/
def renameLoop (ex : String → Bool) (cand : Nat → String) : Nat → Nat → Option String
  | _, 0 => none
  | counter, fuel + 1 =>
      let name := cand counter
      if ex name then renameLoop ex cand (counter + 1) fuel else some name

/-- Candidate name tried by the rename loops: `f"{stem}_{counter}{suffix}"`. -/
def renameCandidate (stem suffix : String) (counter : Nat) : String :=
  stem ++ "_" ++ toString counter ++ suffix

/-! ### `LocalTargetConnector` (src/connectors/local_target.py) -/

/-- `LocalTargetConnector._handle_conflict` on the name `stem ++ suffix`
within one target directory (`ex` is the existence predicate for names in
that directory).  `none` means skip; `rename` tries counters 1..9999 and
falls back to the original name (overwrite) once the counter passes 9999. -/
def handle_conflict (ex : String → Bool) (stem suffix : String) (policy : String) :
    Option String :=
  let target := stem ++ suffix
  if ex target = false then some target
  else if policy = "skip" then none
  else if policy = "overwrite" then some target
  else if policy = "rename" then
    match renameLoop ex (renameCandidate stem suffix) 1 9999 with
    | some name => some name
    | none => some target
  else some target

/-- `LocalTargetConnector.upload_file` for a target name `stem ++ suffix`
living in the directory modelled by `fs` (paths are names in that
directory; the source path is a further name).  `landed` is the digest that
`shutil.copy2` lands at the temporary file.  Returns the
`(success, final_path)` pair of the source together with the new directory
contents. -/
def upload_file (fs : FS) (source stem suffix policy : String) (landed : Nat) :
    (Bool × Option String) × FS :=
  let target := stem ++ suffix
  match fs source with
  | none => ((false, none), fs)
  | some src =>
    match handle_conflict (fun p => (fs p).isSome) stem suffix policy with
    | none => ((true, some target), fs)
    | some final =>
      let temp := "." ++ final ++ ".tmp"
      let fs1 := fs.upd temp (some landed)
      if landed = src then
        ((true, some final), (fs1.upd temp none).upd final (some landed))
      else
        ((false, none), fs1.upd temp none)

/-! ### Ledger records (src/core/database.py) as used by the engine -/

/-- The `JobExecution` row fields the engine reads and writes (times and
job id omitted; the model is per job). -/
structure ExecutionRec where
  id : Nat
  status : String
  total_files : Nat := 0
  processed_files : Nat := 0
  failed_files : Nat := 0
  total_size : Nat := 0
  transferred_size : Nat := 0
  deriving Repr, DecidableEq

/-- The `FileTransfer` row fields the engine reads and writes. -/
structure TransferRec where
  execution_id : Nat
  source_path : String
  target_path : String
  status : String
  deriving Repr, DecidableEq

/-- The ledger: execution rows (in creation order, a resumed execution
re-saved at the back), transfer rows (in creation order) and the next
fresh execution id. -/
structure DB where
  executions : List ExecutionRec
  transfers : List TransferRec
  nextId : Nat
  deriving Repr, DecidableEq

def DB.empty : DB := ⟨[], [], 0⟩

/-- Append a freshly created transfer row. -/
def DB.addTransfer (db : DB) (t : TransferRec) : DB :=
  { db with transfers := db.transfers ++ [t] }

/-- Commit the final state of an execution row (replaces the row with the
same id). -/
def DB.saveExec (db : DB) (e : ExecutionRec) : DB :=
  { db with executions := db.executions.filter (fun x => x.id ≠ e.id) ++ [e] }

/-- The most recent paused execution, as queried at the start of
`_execute_backup` (`filter_by(status='paused').order_by(started_at.desc()).first()`). -/
def DB.latestPaused (db : DB) : Option ExecutionRec :=
  (db.executions.filter (fun e => e.status = "paused")).getLast?

/-! ### The engine (src/core/backup_engine.py) -/

/-- `TransferItem` of `backup_engine.py`. -/
structure TransferItem where
  source_path : String
  target_path : String
  file_size : Nat
  deriving Repr, DecidableEq

/-- The job configuration fields the engine reads. -/
structure Job where
  name : String
  conflict_policy : String
  targetBase : String
  deriving Repr, DecidableEq

/-- At which checkpoint the worker observes a pause request:
never, at the check opening loop iteration `k` (0-based), or at the check
between the last iteration and the completion block.  A request arriving
after the completion block has no effect and equals `run`. -/
inductive Signal where
  | run
  | pauseAt (k : Nat)
  | pauseAtEnd
  deriving Repr, DecidableEq

/-- Per-session environment: the digest `shutil.copy2` lands for each
source, the `stat` size of each source at planning time (`none` = OSError,
the item is logged and omitted), the observed pause signal, and the fuel
bounding the planner's uncapped rename loop. -/
structure SessionEnv where
  landed : String → Nat
  size : String → Option Nat
  signal : Signal
  planFuel : Nat

/-- Destination path of `_plan_transfers`:
`base_target / job.name / source basename`. -/
def targetPathOf (job : Job) (source : String) : String :=
  job.targetBase ++ "/" ++ job.name ++ "/" ++ basename source

/-- One step of `_plan_transfers`.  Outer `none`: the uncapped rename
loop did not terminate within the fuel.  Inner `none`: `stat` raised, the
item is omitted from the plan. -/
def plan_one (job : Job) (fs : FS) (size : String → Option Nat) (fuel : Nat)
    (source : String) : Option (Option TransferItem) :=
  let tgt := targetPathOf job source
  let dir := job.targetBase ++ "/" ++ job.name
  let tgtRes : Option String :=
    if job.conflict_policy = "rename" && (fs tgt).isSome then
      let (stem, suffix) := splitStemSuffix (basename source)
      renameLoop (fun p => (fs p).isSome)
        (fun c => dir ++ "/" ++ renameCandidate stem suffix c) 1 fuel
    else some tgt
  match tgtRes with
  | none => none
  | some t =>
    match size source with
    | some n => some (some ⟨source, t, n⟩)
    | none => some none

/-- `BackupWorker._plan_transfers` over a list of source files (the
filesystem is the one observed at planning time; all items are planned
before any copy). -/
def plan_transfers (job : Job) (fs : FS) (size : String → Option Nat) (fuel : Nat) :
    List String → Option (List TransferItem)
  | [] => some []
  | s :: rest =>
    match plan_one job fs size fuel s with
    | none => none
    | some it =>
      match plan_transfers job fs size fuel rest with
      | none => none
      | some others =>
        some (match it with
              | some i => i :: others
              | none => others)

/-- `BackupWorker._execute_local_transfer`: skip if a completed transfer
row for this execution and source already exists; otherwise create the
row, copy to `f"{target}.tmp"` (landing digest `landed`), compare the
source digest with the temporary file digest, and either rename the
temporary file into place (row `completed`) or remove it (row `failed`).
A missing source makes `shutil.copy2` raise, which also records `failed`.
Returns the success flag with the new ledger and filesystem. -/
def execute_local_transfer (db : DB) (fs : FS) (execId : Nat) (item : TransferItem)
    (landed : Nat) : Bool × DB × FS :=
  if db.transfers.any (fun t =>
      t.execution_id = execId && t.source_path = item.source_path
        && t.status = "completed") then
    (true, db, fs)
  else
    let temp := item.target_path ++ ".tmp"
    match fs item.source_path with
    | none =>
      (false, db.addTransfer ⟨execId, item.source_path, item.target_path, "failed"⟩, fs)
    | some src =>
      let fs1 := fs.upd temp (some landed)
      if landed = src then
        (true, db.addTransfer ⟨execId, item.source_path, item.target_path, "completed"⟩,
          (fs1.upd temp none).upd item.target_path (some landed))
      else
        (false, db.addTransfer ⟨execId, item.source_path, item.target_path, "failed"⟩,
          fs1.upd temp none)

/-- State threaded through the transfer loop: the ledger, the filesystem,
the in-memory execution row (committed at every iteration), the two local
counters of `_execute_backup`, and the emitted progress events
`(current_progress, total_files)`. -/
structure LoopState where
  db : DB
  fs : FS
  exec : ExecutionRec
  successful : Nat
  failed : Nat
  events : List (Nat × Nat)

/-- The transfer loop of `_execute_backup` (lines 196-223).  At the check
opening iteration `i` a pause request may be observed (second component
`true` = interrupted).  Otherwise the loop emits
`(successful + failed + i, total_files)`, runs the transfer, updates the
counters, and commits `processed_files = successful + failed`,
`failed_files` and `transferred_size` on the execution row. -/
def runLoop (landed : String → Nat) (signal : Signal) :
    List TransferItem → Nat → LoopState → LoopState × Bool
  | [], _, st => (st, false)
  | item :: rest, i, st =>
    if signal = Signal.pauseAt i then (st, true)
    else
      let current := st.successful + st.failed + i
      let ev := (current, st.exec.total_files)
      let r := execute_local_transfer st.db st.fs st.exec.id item (landed item.source_path)
      let s' := if r.1 then st.successful + 1 else st.successful
      let f' := if r.1 then st.failed else st.failed + 1
      let tr' := if r.1 then st.exec.transferred_size + item.file_size
                 else st.exec.transferred_size
      let exec' := { st.exec with
        processed_files := s' + f', failed_files := f', transferred_size := tr' }
      runLoop landed signal rest (i + 1)
        { db := r.2.1, fs := r.2.2, exec := exec', successful := s', failed := f',
          events := st.events ++ [ev] }

/-- Result of one worker session (`_execute_backup` between its start and
its return): the committed ledger, the filesystem, the final state of this
session's execution row, the progress events emitted, and the length of
the transfer plan built for this session. -/
structure SessionResult where
  db : DB
  fs : FS
  exec : ExecutionRec
  events : List (Nat × Nat)
  planLen : Nat

/-- `BackupWorker._execute_backup` after the source scan, one session.

* Resume the most recent paused execution if one exists (its completed
  transfer rows give `completed_paths`); else create a fresh `running`
  execution.
* Empty scan: finalize `completed` immediately.
* Filter `remaining_files`, plan them; for a brand-new execution assign
  `total_files` from the full scanned set and `total_size` from a plan of
  the full scanned set.
* Empty plan: finalize `completed` (no check of `failed_files`).
* Otherwise run the transfer loop with `successful` starting at the number
  of completed paths and `failed` at the stored `failed_files`, then
  finalize `paused` if a pause was observed (in the loop or at the
  post-loop check), else `completed` when the `failed` counter is 0 and
  `completed_with_errors` otherwise, emitting a final
  `(total_files, total_files)` event.

`none` means the planner's uncapped rename loop diverged. -/
def execute_backup_rest (job : Job) (sourceFiles : List String) (env : SessionEnv)
    (db : DB) (fs : FS) (exec0 : ExecutionRec) (completedPaths : List String)
    (isResume : Bool) : Option SessionResult :=
  if sourceFiles.isEmpty then
    let exec1 := { exec0 with status := "completed" }
    some ⟨db.saveExec exec1, fs, exec1, [], 0⟩
  else
    let remaining := sourceFiles.filter (fun f => !(completedPaths.contains f))
    match plan_transfers job fs env.size env.planFuel remaining with
    | none => none
    | some items =>
      let exec1opt : Option ExecutionRec :=
        if isResume then some exec0
        else
          match plan_transfers job fs env.size env.planFuel sourceFiles with
          | none => none
          | some fullItems =>
            some { exec0 with
              total_files := sourceFiles.length,
              total_size := (fullItems.map (fun i => i.file_size)).sum }
      match exec1opt with
      | none => none
      | some exec1 =>
        if items.isEmpty then
          let exec2 := { exec1 with status := "completed" }
          some ⟨db.saveExec exec2, fs, exec2, [], 0⟩
        else
          let st0 : LoopState :=
            ⟨db, fs, exec1, completedPaths.length, exec1.failed_files, []⟩
          let r := runLoop env.landed env.signal items 0 st0
          let st := r.1
          if r.2 then
            let exec2 := { st.exec with status := "paused" }
            some ⟨st.db.saveExec exec2, st.fs, exec2, st.events, items.length⟩
          else if env.signal = Signal.pauseAtEnd then
            let exec2 := { st.exec with status := "paused" }
            some ⟨st.db.saveExec exec2, st.fs, exec2, st.events, items.length⟩
          else
            let exec2 := { st.exec with
              status := if st.failed = 0 then "completed" else "completed_with_errors" }
            some ⟨st.db.saveExec exec2, st.fs, exec2,
              st.events ++ [(exec2.total_files, exec2.total_files)], items.length⟩

/-- The toplevel dispatch of `_execute_backup`: resume the latest paused
execution with its completed paths, or create a fresh one, then run the
body `execute_backup_rest`. -/
def execute_backup (job : Job) (sourceFiles : List String) (env : SessionEnv)
    (db : DB) (fs : FS) : Option SessionResult :=
  match db.latestPaused with
  | some e =>
    let exec0 := { e with status := "running" }
    let completedPaths :=
      (db.transfers.filter (fun t =>
        t.execution_id = e.id && t.status = "completed")).map (fun t => t.source_path)
    execute_backup_rest job sourceFiles env db fs exec0 completedPaths true
  | none =>
    let exec0 : ExecutionRec := { id := db.nextId, status := "running" }
    execute_backup_rest job sourceFiles env { db with nextId := db.nextId + 1 } fs
      exec0 [] false

/-! ### `DatabaseManager.cleanup_old_executions` (src/core/database.py) -/

/-- An execution row as seen by the retention query: status and completion
time (`none` = SQL NULL, for which the `<` comparison is not satisfied). -/
structure ExecRow where
  id : Nat
  status : String
  completed_at : Option Int
  deriving Repr, DecidableEq

/-- The deletion predicate of `cleanup_old_executions`:
`completed_at < cutoff` and `status IN ('completed', 'failed', 'cancelled')`. -/
def cleanupDeletes (cutoff : Int) (e : ExecRow) : Bool :=
  (match e.completed_at with
   | some t => decide (t < cutoff)
   | none => false)
  && (e.status = "completed" || e.status = "failed" || e.status = "cancelled")

/-- `DatabaseManager.cleanup_old_executions`: with `cutoff = now - days`,
delete every execution row satisfying `cleanupDeletes` together with its
transfer rows (the `cascade` of `JobExecution.file_transfers`), returning
the remaining rows and the number of deleted executions. -/
def cleanup_old_executions (now : Int) (days_to_keep : Int)
    (execs : List ExecRow) (transfers : List (Nat × Nat)) :
    List ExecRow × List (Nat × Nat) × Nat :=
  let cutoff := now - days_to_keep
  let deleted := execs.filter (cleanupDeletes cutoff)
  let deletedIds := deleted.map (fun e => e.id)
  (execs.filter (fun e => !(cleanupDeletes cutoff e)),
   transfers.filter (fun t => !(deletedIds.contains t.1)),
   deleted.length)

/-! ### Concrete fixtures used by witnesses and counterexamples -/

/-- A one-file job with policy `overwrite`, target base `/backup`. -/
def demoJob : Job := ⟨"job", "overwrite", "/backup"⟩

def demoSources : List String := ["/s/a.txt"]

/-- One readable source file with digest 7. -/
def demoFS : FS := fun p => if p = "/s/a.txt" then some 7 else none

/-- Faithful copies, sizes readable, no pause request. -/
def demoEnv : SessionEnv := ⟨fun _ => 7, fun _ => some 10, Signal.run, 5⟩

/-- A ledger holding one paused execution whose single source file already
has a completed transfer row. -/
def pausedDB : DB :=
  ⟨[⟨0, "paused", 1, 1, 0, 10, 10⟩],
   [⟨0, "/s/a.txt", "/backup/job/a.txt", "completed"⟩], 1⟩

def jobJ : Job := ⟨"j", "overwrite", "/b"⟩

def srcOne : List String := ["/s/a"]

def fsOne : FS := fun p => if p = "/s/a" then some 5 else none

/-- Corrupting copies (landed digest 9 against source digest 5) and a pause
request observed at the post-loop check. -/
def envFailPause : SessionEnv := ⟨fun _ => 9, fun _ => some 10, Signal.pauseAtEnd, 5⟩

/-- Faithful copies and a pause request observed at the post-loop check. -/
def envOkPause : SessionEnv := ⟨fun _ => 5, fun _ => some 10, Signal.pauseAtEnd, 5⟩

/-- Faithful copies, no pause request. -/
def envOkRun : SessionEnv := ⟨fun _ => 5, fun _ => some 10, Signal.run, 5⟩

def srcTwo : List String := ["/s/a", "/s/b"]

def fsTwo : FS :=
  fun p => if p = "/s/a" then some 1 else if p = "/s/b" then some 5 else none

/-- Copies of `/s/b` land corrupted bytes (digest 9 against source 5). -/
def envCorruptB : SessionEnv :=
  ⟨fun p => if p = "/s/b" then 9 else 1, fun _ => some 2, Signal.run, 5⟩

def jobC : Job := ⟨"jc", "overwrite", "/b"⟩

def srcThree : List String := ["/s/a", "/s/b", "/s/c"]

def fsThree : FS :=
  fun p => if p = "/s/a" || p = "/s/b" || p = "/s/c" then some 1 else none

def envThree : SessionEnv := ⟨fun _ => 1, fun _ => some 2, Signal.run, 5⟩

/-- A one-file job with conflict policy `skip`. -/
def jobSkip : Job := ⟨"jd", "skip", "/b"⟩

/-- The source file (digest 7) and a pre-existing destination file with
different content (digest 5) at the planned target path. -/
def fsSkip : FS :=
  fun p => if p = "/s/a.txt" then some 7
           else if p = "/b/jd/a.txt" then some 5 else none

def envSkip : SessionEnv := ⟨fun _ => 7, fun _ => some 3, Signal.run, 5⟩

/-! ## General lemmas -/

theorem FS.upd_apply (fs : FS) (p : String) (v : Option Nat) (q : String) :
    (fs.upd p v) q = if q = p then v else fs q := rfl

theorem renameLoop_eq_none_iff (ex : String → Bool) (cand : Nat → String) :
    ∀ fuel counter, renameLoop ex cand counter fuel = none ↔
      ∀ j, counter ≤ j → j < counter + fuel → ex (cand j) = true := by
  intro fuel
  induction fuel with
  | zero =>
    intro counter
    constructor
    · intro _ j h1 h2
      omega
    · intro _
      rfl
  | succ m ih =>
    intro counter
    rw [renameLoop]
    by_cases hex : ex (cand counter) = true
    · rw [if_pos hex, ih (counter + 1)]
      constructor
      · intro hall j h1 h2
        rcases Nat.eq_or_lt_of_le h1 with h | h
        · exact h ▸ hex
        · exact hall j h (by omega)
      · intro hall j h1 h2
        exact hall j (by omega) (by omega)
    · rw [if_neg hex]
      constructor
      · intro h
        exact absurd h (by simp)
      · intro hall
        exact absurd (hall counter (Nat.le_refl _) (by omega)) hex

theorem renameLoop_eq_some (ex : String → Bool) (cand : Nat → String) :
    ∀ fuel counter name, renameLoop ex cand counter fuel = some name →
      ∃ j, counter ≤ j ∧ j < counter + fuel ∧ name = cand j ∧ ex (cand j) = false ∧
        ∀ k, counter ≤ k → k < j → ex (cand k) = true := by
  intro fuel
  induction fuel with
  | zero =>
    intro counter name h
    exact absurd h (by simp [renameLoop])
  | succ m ih =>
    intro counter name h
    rw [renameLoop] at h
    by_cases hex : ex (cand counter) = true
    · rw [if_pos hex] at h
      obtain ⟨j, h1, h2, h3, h4, h5⟩ := ih (counter + 1) name h
      refine ⟨j, by omega, by omega, h3, h4, fun k hk1 hk2 => ?_⟩
      rcases Nat.eq_or_lt_of_le hk1 with hk | hk
      · exact hk ▸ hex
      · exact h5 k hk hk2
    · rw [if_neg hex] at h
      refine ⟨counter, Nat.le_refl _, by omega, (Option.some_inj.mp h).symm,
        Bool.eq_false_iff.mpr hex, fun k hk1 hk2 => ?_⟩
      omega

theorem renameLoop_finds (ex : String → Bool) (cand : Nat → String) :
    ∀ fuel counter j, counter ≤ j → j < counter + fuel →
      ex (cand j) = false → (∀ k, counter ≤ k → k < j → ex (cand k) = true) →
      renameLoop ex cand counter fuel = some (cand j) := by
  intro fuel
  induction fuel with
  | zero =>
    intro c j h1 h2 _ _
    omega
  | succ m ih =>
    intro c j h1 h2 hf hmin
    rw [renameLoop]
    rcases Nat.eq_or_lt_of_le h1 with h | h
    · subst h
      rw [if_neg (by simp [hf])]
    · have hc : ex (cand c) = true := hmin c (Nat.le_refl _) h
      rw [if_pos hc]
      exact ih (c + 1) j (by omega) (by omega) hf (fun k hk1 hk2 => hmin k (by omega) hk2)

theorem cleanupDeletes_iff (cutoff : Int) (e : ExecRow) :
    cleanupDeletes cutoff e = true ↔
      (∃ t, e.completed_at = some t ∧ t < cutoff) ∧
        (e.status = "completed" ∨ e.status = "failed" ∨ e.status = "cancelled") := by
  unfold cleanupDeletes
  cases h : e.completed_at with
  | none => simp [h]
  | some t => simp [h, or_assoc]

/-! ## Claim theorems -/

/-- Claim C10 (confirmed): `get_progress_percentage` returns 0 when
`total_files = 0` (the division is guarded), and otherwise its result is
capped by the `min` at 100, including when `processed_files` exceeds
`total_files`. -/
theorem progress_percentage_guard_and_cap (p t : Nat) :
    (t = 0 → get_progress_percentage p t = 0) ∧ get_progress_percentage p t ≤ 100 := by
  constructor
  · intro h
    simp [get_progress_percentage, h]
  · by_cases h : t = 0
    · simp [get_progress_percentage, h]
    · rw [get_progress_percentage, if_neg h]
      exact Nat.min_le_left _ _

/-- Witness for C10: the guard at `total_files = 0`, and the cap at
`processed_files = 250 > total_files = 100`. -/
theorem progress_percentage_guard_and_cap_witness :
    (0 = 0 → get_progress_percentage 5 0 = 0) ∧ get_progress_percentage 5 0 ≤ 100 ∧
      get_progress_percentage 250 100 ≤ 100 :=
  ⟨(progress_percentage_guard_and_cap 5 0).1, (progress_percentage_guard_and_cap 5 0).2,
   (progress_percentage_guard_and_cap 250 100).2⟩

/-- Claim C4 (confirmed): the filtering decision of `_should_include_file`.
A file matching any exclude pattern (stripped, tested by basename or by
full path) is dropped regardless of the include list; against a non-empty
include list the file is kept iff some include pattern matches; with an
empty include list every non-excluded file is kept. -/
theorem should_include_file_spec (fnmatch : String → String → Bool) (fp : String)
    (inc exc : List String) :
    ((∃ p ∈ exc, patternMatches fnmatch fp p = true) →
      should_include_file fnmatch fp inc exc = false) ∧
    ((∀ p ∈ exc, patternMatches fnmatch fp p = false) → inc ≠ [] →
      (should_include_file fnmatch fp inc exc = true ↔
        ∃ p ∈ inc, patternMatches fnmatch fp p = true)) ∧
    ((∀ p ∈ exc, patternMatches fnmatch fp p = false) → inc = [] →
      should_include_file fnmatch fp inc exc = true) := by
  refine ⟨?_, ?_, ?_⟩
  · rintro ⟨p, hp, hm⟩
    have hany : exc.any (patternMatches fnmatch fp) = true :=
      List.any_eq_true.mpr ⟨p, hp, hm⟩
    simp [should_include_file, hany]
  · intro hall hne
    have hany : exc.any (patternMatches fnmatch fp) = false := by
      rw [Bool.eq_false_iff]
      intro hc
      obtain ⟨p, hp, hm⟩ := List.any_eq_true.mp hc
      rw [hall p hp] at hm
      exact Bool.false_ne_true hm
    have hni : inc.isEmpty = false := by
      cases inc with
      | nil => exact absurd rfl hne
      | cons a l => rfl
    simp [should_include_file, hany, hni, List.any_eq_true]
  · intro hall he
    subst he
    have hany : exc.any (patternMatches fnmatch fp) = false := by
      rw [Bool.eq_false_iff]
      intro hc
      obtain ⟨p, hp, hm⟩ := List.any_eq_true.mp hc
      rw [hall p hp] at hm
      exact Bool.false_ne_true hm
    simp [should_include_file, hany]

/-- Witness for C4, with `fnmatch` instantiated by plain equality: a file
matching both lists is dropped (precedence), a file matching only the
include list is kept, and with an empty include list a non-excluded file
is kept. -/
theorem should_include_file_spec_witness :
    should_include_file (fun s p => s = p) "/d/a.txt" ["a.txt"] ["a.txt"] = false ∧
      should_include_file (fun s p => s = p) "/d/a.txt" ["a.txt"] ["b.tmp"] = true ∧
      should_include_file (fun s p => s = p) "/d/a.txt" [] ["b.tmp"] = true :=
  ⟨(should_include_file_spec (fun s p => s = p) "/d/a.txt" ["a.txt"] ["a.txt"]).1
      ⟨"a.txt", by decide, by decide⟩,
   ((should_include_file_spec (fun s p => s = p) "/d/a.txt" ["a.txt"] ["b.tmp"]).2.1
      (by decide) (by decide)).mpr ⟨"a.txt", by decide, by decide⟩,
   (should_include_file_spec (fun s p => s = p) "/d/a.txt" [] ["b.tmp"]).2.2
      (by decide) rfl⟩

theorem renameLoop_all_taken (ex : String → Bool) (cand : Nat → String)
    (hex : ∀ p, ex p = true) (fuel counter : Nat) :
    renameLoop ex cand counter fuel = none :=
  (renameLoop_eq_none_iff ex cand fuel counter).mpr (fun _ _ _ => hex _)

theorem handle_conflict_rename_eq (ex : String → Bool) (stem suffix : String) :
    handle_conflict ex stem suffix "rename" =
      if ex (stem ++ suffix) = false then some (stem ++ suffix)
      else
        match renameLoop ex (renameCandidate stem suffix) 1 9999 with
        | some name => some name
        | none => some (stem ++ suffix) := by
  simp only [handle_conflict]
  by_cases h : ex (stem ++ suffix) = false
  · rw [if_pos h, if_pos h]
  · rw [if_neg h, if_neg h, if_neg (by decide : ¬("rename" : String) = "skip"),
      if_neg (by decide : ¬("rename" : String) = "overwrite")]
    simp

/-- Claim C5 counterexample: the claim asserts that rename-collision
resolution has retries bounded by a large cap and in particular terminates
for every existence predicate on destination paths.  The plan-time
resolution in `_plan_transfers` (the `while target_path.exists()` loop,
embedded in `plan_one` with explicit fuel) has no cap: under the existence
predicate that reports every path as taken, no amount of fuel makes
`plan_one` of a `rename` job produce a plan item — the source loop never
terminates. -/
theorem planner_rename_loop_unbounded :
    ¬ ∃ fuel it, plan_one ⟨"j", "rename", "/b"⟩ (fun _ => some 0) (fun _ => some 1)
        fuel "/s/a.txt" = some it := by
  rintro ⟨fuel, it, h⟩
  simp only [plan_one, decide_True, Option.isSome_some, Bool.and_self, if_true,
    renameLoop_all_taken _ _ (fun p : String => rfl)] at h
  exact Option.noConfusion h

/-- Claim C5 (corrected), amended: the connector-side resolution
`_handle_conflict` under policy `rename` does satisfy the claim: it always
returns a result; it keeps a free original name; given a taken original
name it returns the candidate `{stem}_{i}{suffix}` for the least free
counter `i` in 1..9999, and once all 9999 candidates are taken it falls
back to overwrite by returning the original name.  The uncapped plan-time
loop is the part the claim fails on (see the counterexample). -/
theorem handle_conflict_rename_spec (ex : String → Bool) (stem suffix : String) :
    (∃ r, handle_conflict ex stem suffix "rename" = some r) ∧
    (ex (stem ++ suffix) = false →
      handle_conflict ex stem suffix "rename" = some (stem ++ suffix)) ∧
    (ex (stem ++ suffix) = true →
      ((∀ i, 1 ≤ i → i ≤ 9999 → ex (renameCandidate stem suffix i) = true) →
        handle_conflict ex stem suffix "rename" = some (stem ++ suffix)) ∧
      (∀ j, 1 ≤ j → j ≤ 9999 → ex (renameCandidate stem suffix j) = false →
        (∀ k, 1 ≤ k → k < j → ex (renameCandidate stem suffix k) = true) →
        handle_conflict ex stem suffix "rename" =
          some (renameCandidate stem suffix j))) := by
  rw [handle_conflict_rename_eq]
  by_cases hex : ex (stem ++ suffix) = false
  · rw [if_pos hex]
    refine ⟨⟨stem ++ suffix, rfl⟩, fun _ => rfl, fun htrue => ?_⟩
    rw [htrue] at hex
    exact absurd hex (by simp)
  · rw [if_neg hex]
    refine ⟨?_, fun hfalse => absurd hfalse hex, fun _ => ⟨?_, ?_⟩⟩
    · cases hloop : renameLoop ex (renameCandidate stem suffix) 1 9999 with
      | none => exact ⟨stem ++ suffix, rfl⟩
      | some name => exact ⟨name, rfl⟩
    · intro hall
      rw [(renameLoop_eq_none_iff ex (renameCandidate stem suffix) 9999 1).mpr
        (fun j h1 h2 => hall j h1 (by omega))]
    · intro j h1 h2 hf hmin
      rw [renameLoop_finds ex (renameCandidate stem suffix) 9999 1 j h1 (by omega) hf
        (fun k hk1 hk2 => hmin k hk1 hk2)]

/-- Witness for the amended C5 theorem: with `a.txt` and `a_1.txt` taken,
`_handle_conflict` under `rename` returns the first free candidate
`a_2.txt`. -/
theorem handle_conflict_rename_spec_witness :
    handle_conflict (fun p => p = "a.txt" || p = "a_1.txt") "a" ".txt" "rename" =
      some (renameCandidate "a" ".txt" 2) ∧ renameCandidate "a" ".txt" 2 = "a_2.txt" := by
  constructor
  · refine ((handle_conflict_rename_spec (fun p => p = "a.txt" || p = "a_1.txt")
      "a" ".txt").2.2 (by decide)).2 2 (by decide) (by decide) (by decide) ?_
    intro k hk1 hk2
    have hk : k = 1 := by omega
    subst hk
    decide
  · decide

/-- Claim C9 counterexample: an execution in the terminal status
`completed_with_errors`, completed at time 0 and far older than the
30-day window at `now = 100`, is NOT deleted by `cleanup_old_executions`
(and neither is its transfer row), because the status list in the query is
`('completed', 'failed', 'cancelled')`.  The claim states that every
terminal execution older than the window is deleted. -/
theorem cleanup_misses_completed_with_errors :
    cleanup_old_executions 100 30
        [(⟨1, "completed_with_errors", some 0⟩ : ExecRow)] [(1, 5)] =
      ([(⟨1, "completed_with_errors", some 0⟩ : ExecRow)], [(1, 5)], 0) ∧
      (0 : Int) < 100 - 30 := by
  constructor
  · rfl
  · decide

/-- Claim C9 (corrected), amended: `cleanup_old_executions` deletes an
execution together with its transfer rows iff its `completed_at` is
non-NULL and older than `now - days_to_keep` AND its status is one of
`completed`, `failed`, `cancelled` — the terminal status
`completed_with_errors` is never purged.  Executions in non-terminal
statuses (`running`, `paused`, `pending`, with `completed_at` NULL or not)
are never deleted regardless of age. -/
theorem cleanup_old_executions_spec (now days : Int) (execs : List ExecRow)
    (transfers : List (Nat × Nat)) :
    (∀ e, e ∈ (cleanup_old_executions now days execs transfers).1 ↔
      e ∈ execs ∧ ¬((∃ t, e.completed_at = some t ∧ t < now - days) ∧
        (e.status = "completed" ∨ e.status = "failed" ∨ e.status = "cancelled"))) ∧
    (∀ e ∈ execs, (e.status = "running" ∨ e.status = "paused" ∨ e.status = "pending") →
      e ∈ (cleanup_old_executions now days execs transfers).1) ∧
    (∀ tr, tr ∈ (cleanup_old_executions now days execs transfers).2.1 ↔
      tr ∈ transfers ∧
        ¬ ∃ e ∈ execs, cleanupDeletes (now - days) e = true ∧ e.id = tr.1) := by
  have hmem : ∀ e, e ∈ (cleanup_old_executions now days execs transfers).1 ↔
      e ∈ execs ∧ ¬((∃ t, e.completed_at = some t ∧ t < now - days) ∧
        (e.status = "completed" ∨ e.status = "failed" ∨ e.status = "cancelled")) := by
    intro e
    simp only [cleanup_old_executions, List.mem_filter, Bool.not_eq_true']
    constructor
    · rintro ⟨h1, h2⟩
      refine ⟨h1, fun hp => ?_⟩
      rw [(cleanupDeletes_iff (now - days) e).mpr hp] at h2
      exact absurd h2 (by decide)
    · rintro ⟨h1, h2⟩
      refine ⟨h1, ?_⟩
      cases hd : cleanupDeletes (now - days) e with
      | false => rfl
      | true => exact absurd ((cleanupDeletes_iff (now - days) e).mp hd) h2
  refine ⟨hmem, ?_, ?_⟩
  · intro e he hs
    refine (hmem e).mpr ⟨he, ?_⟩
    rintro ⟨_, hc | hc | hc⟩ <;>
      rcases hs with hs | hs | hs <;> rw [hs] at hc <;> exact absurd hc (by decide)
  · intro tr
    simp only [cleanup_old_executions, List.mem_filter, Bool.not_eq_true']
    constructor
    · rintro ⟨h1, h2⟩
      refine ⟨h1, ?_⟩
      rintro ⟨e, he, hd, hid⟩
      have hin : tr.1 ∈ (execs.filter (cleanupDeletes (now - days))).map
          (fun e => e.id) :=
        List.mem_map.mpr ⟨e, List.mem_filter.mpr ⟨he, hd⟩, hid⟩
      exact absurd hin (by simpa using h2)
    · rintro ⟨h1, h2⟩
      refine ⟨h1, ?_⟩
      have : ¬ tr.1 ∈ (execs.filter (cleanupDeletes (now - days))).map
          (fun e => e.id) := by
        rintro hin
        obtain ⟨e, he, hid⟩ := List.mem_map.mp hin
        obtain ⟨he1, he2⟩ := List.mem_filter.mp he
        exact h2 ⟨e, he1, he2, hid⟩
      simpa using this

/-- Witness for the amended C9 theorem: a non-terminal `running` execution
survives the purge while an old `completed` sibling is removed. -/
theorem cleanup_old_executions_spec_witness :
    (⟨2, "running", (none : Option Int)⟩ : ExecRow) ∈
      (cleanup_old_executions 100 30
        [(⟨1, "completed", some 0⟩ : ExecRow), ⟨2, "running", none⟩] [(1, 5)]).1 :=
  (cleanup_old_executions_spec 100 30
      [(⟨1, "completed", some 0⟩ : ExecRow), ⟨2, "running", none⟩] [(1, 5)]).2.1
    ⟨2, "running", none⟩ (by simp) (Or.inl rfl)

/-- Claim C6 counterexample: for the job `jobSkip` with conflict policy
`skip`, whose single planned destination `/b/jd/a.txt` already exists with
content 5, a full engine run replaces the destination content with the
source content 7 and records the transfer as `completed`:
`_execute_local_transfer` copies and renames unconditionally, never
consulting the conflict policy or the connector, so the existing file is
NOT left untouched as the claim states. -/
theorem engine_skip_overwrites_destination :
    fsSkip "/b/jd/a.txt" = some 5 ∧
      (execute_backup jobSkip ["/s/a.txt"] envSkip DB.empty fsSkip).map
        (fun r => (r.fs "/b/jd/a.txt", r.exec.status, r.db.transfers)) =
      some (some 7, "completed",
        [⟨0, "/s/a.txt", "/b/jd/a.txt", "completed"⟩]) := by
  constructor
  · rfl
  · rfl

/-- Claim C6 (corrected), amended: the behaviour the claim describes is
implemented in `LocalTargetConnector.upload_file` — under policy `skip`
with an existing destination it returns success with the original target
path and leaves the directory contents (in particular the destination
file) completely untouched — but the engine's copy step never calls the
connector, and overwrites instead (see the counterexample). -/
theorem connector_skip_preserves_destination (fs : FS) (source stem suffix : String)
    (landed c : Nat) (hsrc : fs source = some c)
    (htgt : (fs (stem ++ suffix)).isSome = true) :
    upload_file fs source stem suffix "skip" landed =
      ((true, some (stem ++ suffix)), fs) := by
  have hconf : handle_conflict (fun p => (fs p).isSome) stem suffix "skip" = none := by
    simp only [handle_conflict]
    rw [if_neg (by rw [htgt]; exact fun h => absurd h (by decide)), if_pos trivial]
  rw [upload_file, hsrc, hconf]

/-- Witness for the amended C6 theorem: a directory where `a.txt` exists
with content 5; uploading a source with content 7 under `skip` succeeds,
reports the original target and leaves the directory unchanged. -/
theorem connector_skip_preserves_destination_witness :
    upload_file (fun p => if p = "src" then some 7
        else if p = "a.txt" then some 5 else none) "src" "a" ".txt" "skip" 7 =
      ((true, some ("a" ++ ".txt")),
        fun p => if p = "src" then some 7 else if p = "a.txt" then some 5 else none) :=
  connector_skip_preserves_destination
    (fun p => if p = "src" then some 7 else if p = "a.txt" then some 5 else none)
    "src" "a" ".txt" 7 7 (by decide) (by decide)

/-! ## Lemmas about the transfer step and the transfer loop -/

theorem append_tmp_ne (t : String) : t ++ ".tmp" ≠ t := by
  intro h
  have hl := congrArg String.length h
  rw [String.length_append] at hl
  have h4 : String.length ".tmp" = 4 := rfl
  omega

theorem execute_local_transfer_db_grow (db : DB) (fs : FS) (eid : Nat)
    (item : TransferItem) (landed : Nat) :
    ∃ l, (execute_local_transfer db fs eid item landed).2.1.transfers =
        db.transfers ++ l ∧
      ∀ r ∈ l, r.execution_id = eid ∧ r.source_path = item.source_path := by
  unfold execute_local_transfer
  split
  · exact ⟨[], by simp, by simp⟩
  · split
    · exact ⟨[⟨eid, item.source_path, item.target_path, "failed"⟩], rfl, by simp⟩
    · split
      · exact ⟨[⟨eid, item.source_path, item.target_path, "completed"⟩], rfl, by simp⟩
      · exact ⟨[⟨eid, item.source_path, item.target_path, "failed"⟩], rfl, by simp⟩

theorem execute_local_transfer_fs_none (db : DB) (fs : FS) (eid : Nat)
    (item : TransferItem) (landed : Nat) (p : String)
    (hp : p ≠ item.target_path) (h0 : fs p = none) :
    (execute_local_transfer db fs eid item landed).2.2 p = none := by
  unfold execute_local_transfer
  split
  · exact h0
  · split
    · exact h0
    · split
      · by_cases ht : p = item.target_path ++ ".tmp" <;>
          simp [FS.upd, hp, ht, h0, append_tmp_ne]
      · by_cases ht : p = item.target_path ++ ".tmp" <;>
          simp [FS.upd, hp, ht, h0, append_tmp_ne]

theorem execute_local_transfer_fs_frame (db : DB) (fs : FS) (eid : Nat)
    (item : TransferItem) (landed : Nat) (p : String)
    (hp : p ≠ item.target_path) (ht : p ≠ item.target_path ++ ".tmp") :
    (execute_local_transfer db fs eid item landed).2.2 p = fs p := by
  unfold execute_local_transfer
  split
  · rfl
  · split
    · rfl
    · split <;> simp [FS.upd, hp, ht]

theorem execute_local_transfer_checksum_fail (db : DB) (fs : FS) (eid : Nat)
    (item : TransferItem) (landed c : Nat)
    (hno : (db.transfers.any fun t =>
        t.execution_id = eid && t.source_path = item.source_path &&
          t.status = "completed") = false)
    (hsrc : fs item.source_path = some c) (hbad : landed ≠ c) :
    execute_local_transfer db fs eid item landed =
      (false, db.addTransfer ⟨eid, item.source_path, item.target_path, "failed"⟩,
        (fs.upd (item.target_path ++ ".tmp") (some landed)).upd
          (item.target_path ++ ".tmp") none) := by
  unfold execute_local_transfer
  rw [hno, hsrc]
  simp [hbad]

theorem runLoop_run_result (landed : String → Nat) :
    ∀ (items : List TransferItem) (i : Nat) (st : LoopState),
      (runLoop landed Signal.run items i st).2 = false ∧
      (runLoop landed Signal.run items i st).1.successful +
        (runLoop landed Signal.run items i st).1.failed =
        st.successful + st.failed + items.length := by
  intro items
  induction items with
  | nil =>
    intro i st
    exact ⟨rfl, rfl⟩
  | cons item rest ih =>
    intro i st
    simp only [runLoop, if_neg (show ¬(Signal.run = Signal.pauseAt i) by simp)]
    refine ⟨(ih _ _).1, ?_⟩
    rw [(ih _ _).2]
    by_cases hr : (execute_local_transfer st.db st.fs st.exec.id item
        (landed item.source_path)).1 = true <;>
      simp [hr, List.length_cons] <;> omega

theorem runLoop_exec_const (landed : String → Nat) (signal : Signal) :
    ∀ (items : List TransferItem) (i : Nat) (st : LoopState),
      (runLoop landed signal items i st).1.exec.id = st.exec.id ∧
      (runLoop landed signal items i st).1.exec.total_files = st.exec.total_files ∧
      (runLoop landed signal items i st).1.exec.total_size = st.exec.total_size := by
  intro items
  induction items with
  | nil =>
    intro i st
    exact ⟨rfl, rfl, rfl⟩
  | cons item rest ih =>
    intro i st
    rw [runLoop]
    by_cases hs : signal = Signal.pauseAt i
    · rw [if_pos hs]
      exact ⟨rfl, rfl, rfl⟩
    · rw [if_neg hs]
      exact ih _ _

theorem runLoop_db_grow (landed : String → Nat) (signal : Signal) :
    ∀ (items : List TransferItem) (i : Nat) (st : LoopState),
      ∃ l, (runLoop landed signal items i st).1.db.transfers =
          st.db.transfers ++ l ∧
        ∀ r ∈ l, r.execution_id = st.exec.id ∧
          ∃ it, it ∈ items ∧ r.source_path = it.source_path := by
  intro items
  induction items with
  | nil =>
    intro i st
    exact ⟨[], by simp [runLoop], by simp⟩
  | cons item rest ih =>
    intro i st
    rw [runLoop]
    by_cases hs : signal = Signal.pauseAt i
    · rw [if_pos hs]
      exact ⟨[], by simp, by simp⟩
    · rw [if_neg hs]
      obtain ⟨l1, h1, h2⟩ :=
        execute_local_transfer_db_grow st.db st.fs st.exec.id item
          (landed item.source_path)
      obtain ⟨l2, g1, g2⟩ := ih (i + 1) _
      refine ⟨l1 ++ l2, ?_, ?_⟩
      · rw [g1]
        show (execute_local_transfer st.db st.fs st.exec.id item
          (landed item.source_path)).2.1.transfers ++ l2 = st.db.transfers ++ (l1 ++ l2)
        rw [h1, List.append_assoc]
      · intro r hr
        rcases List.mem_append.mp hr with hr | hr
        · exact ⟨(h2 r hr).1, item, List.mem_cons_self _ _, (h2 r hr).2⟩
        · obtain ⟨heid, it, hit, hsp⟩ := g2 r hr
          exact ⟨heid, it, List.mem_cons_of_mem _ hit, hsp⟩

theorem runLoop_fs_none (landed : String → Nat) (signal : Signal) (p : String) :
    ∀ (items : List TransferItem) (i : Nat) (st : LoopState),
      st.fs p = none → (∀ it ∈ items, it.target_path ≠ p) →
      (runLoop landed signal items i st).1.fs p = none := by
  intro items
  induction items with
  | nil =>
    intro i st h0 _
    exact h0
  | cons item rest ih =>
    intro i st h0 hall
    rw [runLoop]
    by_cases hs : signal = Signal.pauseAt i
    · rw [if_pos hs]
      exact h0
    · rw [if_neg hs]
      refine ih (i + 1) _ ?_ (fun x hx => hall x (List.mem_cons_of_mem _ hx))
      exact execute_local_transfer_fs_none st.db st.fs st.exec.id item
        (landed item.source_path) p
        (fun hc => hall item (List.mem_cons_self _ _) hc.symm) h0

theorem runLoop_fs_frame (landed : String → Nat) (signal : Signal) (p : String) :
    ∀ (items : List TransferItem) (i : Nat) (st : LoopState),
      (∀ it ∈ items, it.target_path ≠ p ∧ it.target_path ++ ".tmp" ≠ p) →
      (runLoop landed signal items i st).1.fs p = st.fs p := by
  intro items
  induction items with
  | nil =>
    intro i st _
    rfl
  | cons item rest ih =>
    intro i st hall
    rw [runLoop]
    by_cases hs : signal = Signal.pauseAt i
    · rw [if_pos hs]
    · rw [if_neg hs]
      rw [ih (i + 1) _ (fun x hx => hall x (List.mem_cons_of_mem _ hx))]
      exact execute_local_transfer_fs_frame st.db st.fs st.exec.id item
        (landed item.source_path) p
        (fun hc => (hall item (List.mem_cons_self _ _)).1 hc.symm)
        (fun hc => (hall item (List.mem_cons_self _ _)).2 hc.symm)

theorem runLoop_failed_le (landed : String → Nat) (signal : Signal) :
    ∀ (items : List TransferItem) (i : Nat) (st : LoopState),
      st.failed ≤ (runLoop landed signal items i st).1.failed := by
  intro items
  induction items with
  | nil =>
    intro i st
    exact Nat.le_refl _
  | cons item rest ih =>
    intro i st
    rw [runLoop]
    by_cases hs : signal = Signal.pauseAt i
    · rw [if_pos hs]
    · rw [if_neg hs]
      refine Nat.le_trans ?_ (ih (i + 1) _)
      by_cases hr : (execute_local_transfer st.db st.fs st.exec.id item
          (landed item.source_path)).1 = true
      · simp only [hr, if_true]
        exact Nat.le_refl _
      · simp only [hr, if_false]
        exact Nat.le_succ _

theorem runLoop_processed_eq (landed : String → Nat) :
    ∀ (items : List TransferItem) (i : Nat) (st : LoopState), items ≠ [] →
      (runLoop landed Signal.run items i st).1.exec.processed_files =
        (runLoop landed Signal.run items i st).1.successful +
          (runLoop landed Signal.run items i st).1.failed := by
  intro items
  induction items with
  | nil =>
    intro i st h
    exact absurd rfl h
  | cons item rest ih =>
    intro i st _
    simp only [runLoop, if_neg (show ¬(Signal.run = Signal.pauseAt i) by simp)]
    cases rest with
    | nil => rfl
    | cons b l => exact ih (i + 1) _ (by simp)

theorem runLoop_run_append (landed : String → Nat) :
    ∀ (as bs : List TransferItem) (i : Nat) (st : LoopState),
      runLoop landed Signal.run (as ++ bs) i st =
        runLoop landed Signal.run bs (i + as.length)
          (runLoop landed Signal.run as i st).1 := by
  intro as
  induction as with
  | nil =>
    intro bs i st
    rfl
  | cons a as ih =>
    intro bs i st
    show runLoop landed Signal.run (a :: (as ++ bs)) i st = _
    simp only [runLoop, if_neg (show ¬(Signal.run = Signal.pauseAt i) by simp)]
    rw [ih bs (i + 1) _, List.length_cons, Nat.succ_add]
    rfl

/-- Claim C1 counterexample: on the one-file job `demoJob` with unchanged
sources, the first full run ends in the terminal successful state
`completed` with one transfer row; a second full run then finds no paused
execution, creates a fresh one with empty `completed_paths`, and its plan
has length 1 (not 0) and adds a second `completed` transfer row — the file
is copied again.  The per-execution dedup check of
`_execute_local_transfer` is scoped to `execution_id`, so nothing from the
first run is reused. -/
theorem second_full_run_replans_and_recopies :
    (execute_backup demoJob demoSources demoEnv DB.empty demoFS).map
        (fun r => (r.exec.status, r.planLen, r.db.transfers.length)) =
      some ("completed", 1, 1) ∧
    ((execute_backup demoJob demoSources demoEnv DB.empty demoFS).bind (fun r1 =>
        execute_backup demoJob demoSources demoEnv r1.db r1.fs)).map
        (fun r => (r.planLen, r.db.transfers.length)) = some (1, 2) := by
  constructor
  · rfl
  · rfl

/-- Claim C1 (corrected), amended: the empty second plan and the
zero-re-copy behaviour hold only when the second invocation RESUMES a
paused (hence non-terminal) execution all of whose source files already
have `completed` transfer rows: then the plan is empty, the same execution
is finalized `completed`, no transfer row is added and the filesystem is
untouched.  After a terminal successful first run the engine instead
starts a fresh execution and re-copies everything (see the
counterexample). -/
theorem resume_with_all_completed_is_idempotent (job : Job)
    (sourceFiles : List String) (env : SessionEnv) (db : DB) (fs : FS)
    (e : ExecutionRec) (hp : db.latestPaused = some e) (hne : sourceFiles ≠ [])
    (hall : ∀ s ∈ sourceFiles,
      s ∈ (db.transfers.filter (fun t =>
        t.execution_id = e.id && t.status = "completed")).map
          (fun t => t.source_path)) :
    ∃ res, execute_backup job sourceFiles env db fs = some res ∧
      res.planLen = 0 ∧ res.exec.status = "completed" ∧ res.exec.id = e.id ∧
      res.db.transfers = db.transfers ∧ res.fs = fs := by
  have hie : sourceFiles.isEmpty = false := by
    cases sourceFiles with
    | nil => exact absurd rfl hne
    | cons a t => rfl
  have hrem : sourceFiles.filter (fun f =>
      !(((db.transfers.filter (fun t =>
        t.execution_id = e.id && t.status = "completed")).map
          (fun t => t.source_path)).contains f)) = [] := by
    rw [List.filter_eq_nil_iff]
    intro a ha
    simp [hall a ha]
  simp only [execute_backup, hp, execute_backup_rest, hie, Bool.false_eq_true,
    if_false, hrem, plan_transfers, if_true, List.isEmpty_nil]
  exact ⟨_, rfl, rfl, rfl, rfl, rfl, rfl⟩

/-- Witness for the amended C1 theorem: resuming `pausedDB`, whose paused
execution has a completed transfer row for the only source file, yields an
empty plan and an unchanged transfer table. -/
theorem resume_with_all_completed_is_idempotent_witness :
    ∃ res, execute_backup demoJob demoSources demoEnv pausedDB demoFS = some res ∧
      res.planLen = 0 ∧ res.exec.status = "completed" ∧ res.exec.id = 0 ∧
      res.db.transfers = pausedDB.transfers ∧ res.fs = demoFS :=
  resume_with_all_completed_is_idempotent demoJob demoSources demoEnv pausedDB demoFS
    ⟨0, "paused", 1, 1, 0, 10, 10⟩ (by rfl) (by simp [demoSources])
    (by intro s hs; simp [demoSources] at hs; subst hs; simp [pausedDB])

/-- Claim C2 (code bug): the failing trace.  Job `jobJ` has N = 1 source
file.  Session 1: the copy lands corrupted bytes, the transfer fails
(`processed_files = 1`, `failed_files = 1`), and a pause observed at the
post-loop check leaves the execution `paused`.  Session 2 resumes: the
local counter `failed_transfers` is seeded from `failed_files = 1`, yet
the previously failed file is re-planned and retried; it now succeeds, so
`processed_files` becomes `1 + 1 = 2` — the retried failure is counted
twice; a pause again leaves the execution `paused`.  Session 3 resumes:
every file now has a completed transfer row, so the plan is empty and the
execution is finalized `completed` — without checking `failed_files` —
with `processed_files = 2` although `total_files = N = 1`. -/
theorem completed_execution_processed_exceeds_total :
    ((((execute_backup jobJ srcOne envFailPause DB.empty fsOne).bind (fun r1 =>
        execute_backup jobJ srcOne envOkPause r1.db r1.fs)).bind (fun r2 =>
        execute_backup jobJ srcOne envOkRun r2.db r2.fs)).map (fun r =>
        (r.exec.status, r.exec.processed_files, r.exec.total_files))) =
      some ("completed", 2, 1) ∧ srcOne.length = 1 := by
  constructor
  · rfl
  · rfl

/-- Claim C7 (code bug): the emitted event trace at the failing input.
A fresh run of three files that all succeed emits progress first
components 0, 2, 4 and then the completion event 3: iteration `i` emits
`successful + failed + i` where the counters already include the `i`
items processed so far, double-counting them.  The claim requires the
components to equal `processed_files` at each point (0, 1, 2), never to
exceed the total (the third event, 4, exceeds 3) and to be non-decreasing
(the final event drops from 4 to 3). -/
theorem progress_events_overshoot_and_decrease :
    (execute_backup jobC srcThree envThree DB.empty fsThree).map
        (fun r => (r.events, r.exec.total_files)) =
      some ([(0, 3), (2, 3), (4, 3), (3, 3)], 3) := by
  rfl

theorem execute_backup_rest_resume_totals (job : Job) (sourceFiles : List String)
    (env : SessionEnv) (db : DB) (fs : FS) (exec0 : ExecutionRec)
    (cps : List String) (res : SessionResult)
    (h : execute_backup_rest job sourceFiles env db fs exec0 cps true = some res) :
    res.exec.total_files = exec0.total_files ∧
      res.exec.total_size = exec0.total_size ∧ res.exec.id = exec0.id := by
  simp only [execute_backup_rest, if_true] at h
  by_cases hie : sourceFiles.isEmpty = true
  · rw [if_pos hie] at h
    cases Option.some_inj.mp h
    exact ⟨rfl, rfl, rfl⟩
  · rw [if_neg hie] at h
    split at h
    · exact absurd h (by simp)
    · rename_i items hpr
      by_cases hit : items.isEmpty = true
      · rw [if_pos hit] at h
        cases Option.some_inj.mp h
        exact ⟨rfl, rfl, rfl⟩
      · rw [if_neg hit] at h
        have hc := runLoop_exec_const env.landed env.signal items 0
          ⟨db, fs, exec0, cps.length, exec0.failed_files, []⟩
        split at h
        · cases Option.some_inj.mp h
          exact ⟨hc.2.1, hc.2.2, hc.1⟩
        · split at h
          · cases Option.some_inj.mp h
            exact ⟨hc.2.1, hc.2.2, hc.1⟩
          · cases Option.some_inj.mp h
            exact ⟨hc.2.1, hc.2.2, hc.1⟩

theorem execute_backup_rest_fresh_totals (job : Job) (sourceFiles : List String)
    (env : SessionEnv) (db : DB) (fs : FS) (exec0 : ExecutionRec)
    (cps : List String) (res : SessionResult) (fullItems : List TransferItem)
    (h : execute_backup_rest job sourceFiles env db fs exec0 cps false = some res)
    (hplan : plan_transfers job fs env.size env.planFuel sourceFiles = some fullItems)
    (h0f : exec0.total_files = 0) (h0s : exec0.total_size = 0) :
    res.exec.total_files = sourceFiles.length ∧
      res.exec.total_size = (fullItems.map (fun i => i.file_size)).sum := by
  simp only [execute_backup_rest, Bool.false_eq_true, if_false] at h
  by_cases hie : sourceFiles.isEmpty = true
  · rw [if_pos hie] at h
    have hnil : sourceFiles = [] := List.isEmpty_iff.mp hie
    subst hnil
    have hfi : fullItems = [] := (Option.some_inj.mp hplan).symm
    subst hfi
    cases Option.some_inj.mp h
    exact ⟨h0f, h0s⟩
  · rw [if_neg hie] at h
    split at h
    · exact absurd h (by simp)
    · rename_i items hpr
      simp only [hplan] at h
      by_cases hit : items.isEmpty = true
      · rw [if_pos hit] at h
        cases Option.some_inj.mp h
        exact ⟨rfl, rfl⟩
      · rw [if_neg hit] at h
        have hc := runLoop_exec_const env.landed env.signal items 0
          (LoopState.mk db fs
            { exec0 with
              total_files := sourceFiles.length,
              total_size := (fullItems.map (fun i => i.file_size)).sum }
            cps.length exec0.failed_files [])
        split at h
        · cases Option.some_inj.mp h
          exact ⟨hc.2.1, hc.2.2⟩
        · split at h
          · cases Option.some_inj.mp h
            exact ⟨hc.2.1, hc.2.2⟩
          · cases Option.some_inj.mp h
            exact ⟨hc.2.1, hc.2.2⟩

/-- Claim C8 (confirmed): an execution resumed from `paused` keeps its
original `total_files`, `total_size` (and id) whatever happens in the
session, while a brand-new execution gets `total_files` from the length of
the FULL scanned file list and `total_size` from a plan of the full list —
not just the remaining files. -/
theorem execution_totals_once_from_full_scan (job : Job) (sourceFiles : List String)
    (env : SessionEnv) (db : DB) (fs : FS) (res : SessionResult)
    (h : execute_backup job sourceFiles env db fs = some res) :
    (db.latestPaused = none →
      ∀ fullItems, plan_transfers job fs env.size env.planFuel sourceFiles =
          some fullItems →
        res.exec.total_files = sourceFiles.length ∧
        res.exec.total_size = (fullItems.map (fun i => i.file_size)).sum) ∧
    (∀ e, db.latestPaused = some e →
      res.exec.total_files = e.total_files ∧ res.exec.total_size = e.total_size ∧
        res.exec.id = e.id) := by
  constructor
  · intro hnone fullItems hplan
    simp only [execute_backup, hnone] at h
    exact execute_backup_rest_fresh_totals _ _ _ _ _ _ _ _ _ h hplan rfl rfl
  · intro e he
    simp only [execute_backup, he] at h
    exact execute_backup_rest_resume_totals job sourceFiles env db fs
      { e with status := "running" } _ res h

/-- Witness for C8: on the fresh one-file run the totals come out as the
full scan: 1 file, 10 bytes; on the resumed `pausedDB` the stored totals
(1 file, size 10) and the execution id 0 are reused. -/
theorem execution_totals_once_from_full_scan_witness :
    (∃ res, execute_backup demoJob demoSources demoEnv DB.empty demoFS = some res ∧
      res.exec.total_files = 1 ∧ res.exec.total_size = 10) ∧
    (∃ res, execute_backup demoJob demoSources demoEnv pausedDB demoFS = some res ∧
      res.exec.total_files = 1 ∧ res.exec.total_size = 10 ∧ res.exec.id = 0) := by
  constructor
  · cases hh : execute_backup demoJob demoSources demoEnv DB.empty demoFS with
    | none =>
      have hs : (execute_backup demoJob demoSources demoEnv DB.empty demoFS).isSome
          = true := rfl
      rw [hh] at hs
      exact absurd hs (by decide)
    | some res =>
      have hz := (execution_totals_once_from_full_scan demoJob demoSources demoEnv
        DB.empty demoFS res hh).1 rfl
        [⟨"/s/a.txt", "/backup/job/a.txt", 10⟩] rfl
      exact ⟨res, rfl, hz.1, hz.2⟩
  · cases hh : execute_backup demoJob demoSources demoEnv pausedDB demoFS with
    | none =>
      have hs : (execute_backup demoJob demoSources demoEnv pausedDB demoFS).isSome
          = true := rfl
      rw [hh] at hs
      exact absurd hs (by decide)
    | some res =>
      have hz := (execution_totals_once_from_full_scan demoJob demoSources demoEnv
        pausedDB demoFS res hh).2 ⟨0, "paused", 1, 1, 0, 10, 10⟩ rfl
      exact ⟨res, rfl, hz.1, hz.2.1, hz.2.2⟩

theorem DB.saveExec_transfers (db : DB) (e : ExecutionRec) :
    (db.saveExec e).transfers = db.transfers := rfl

theorem transfers_any_completed_false (ts : List TransferRec) (eid : Nat) (sp : String)
    (h : ∀ r ∈ ts, r.source_path ≠ sp) :
    (ts.any fun t => t.execution_id = eid && t.source_path = sp &&
      t.status = "completed") = false := by
  rw [Bool.eq_false_iff]
  intro hc
  obtain ⟨t, ht, hp⟩ := List.any_eq_true.mp hc
  simp only [Bool.and_eq_true, decide_eq_true_eq] at hp
  exact h t ht hp.1.2

/-- Evaluation of a fresh, uninterrupted session: with a non-empty scan,
no completed paths, a plan `items` of the full scan that is non-empty, and
no pause observed, `execute_backup_rest` runs the whole loop and finalizes
with `completed` exactly when the failure counter ends at zero. -/
theorem execute_backup_rest_fresh_run_eq (job : Job) (sourceFiles : List String)
    (env : SessionEnv) (db : DB) (fs : FS) (exec0 : ExecutionRec)
    (items : List TransferItem)
    (hsig : env.signal = Signal.run)
    (hie : sourceFiles.isEmpty = false)
    (hplan : plan_transfers job fs env.size env.planFuel sourceFiles = some items)
    (hitne : items.isEmpty = false) :
    execute_backup_rest job sourceFiles env db fs exec0 [] false =
      some (
        let exec1 : ExecutionRec := { exec0 with
          total_files := sourceFiles.length,
          total_size := (items.map (fun i => i.file_size)).sum }
        let st := (runLoop env.landed Signal.run items 0
          (LoopState.mk db fs exec1 0 exec1.failed_files [])).1
        let exec2 : ExecutionRec := { st.exec with
          status := if st.failed = 0 then "completed" else "completed_with_errors" }
        SessionResult.mk (st.db.saveExec exec2) st.fs exec2
          (st.events ++ [(exec2.total_files, exec2.total_files)]) items.length) := by
  have hrem : sourceFiles.filter (fun f => !(([] : List String).contains f)) =
      sourceFiles := List.filter_eq_self.mpr (fun a _ => rfl)
  simp only [execute_backup_rest, Bool.false_eq_true, if_false, hie, hrem, hplan,
    hitne, hsig, List.length_nil]
  rw [(runLoop_run_result env.landed items 0 _).1]
  simp only [Bool.false_eq_true, if_false,
    if_neg (show ¬(Signal.run = Signal.pauseAtEnd) by simp)]

theorem runLoop_transfers_mem (landed : String → Nat) (signal : Signal)
    (items : List TransferItem) (i : Nat) (st : LoopState) (r : TransferRec)
    (hr : r ∈ st.db.transfers) :
    r ∈ (runLoop landed signal items i st).1.db.transfers := by
  obtain ⟨l, hl, -⟩ := runLoop_db_grow landed signal items i st
  rw [hl]
  exact List.mem_append_left _ hr

/-- One loop iteration on a transfer whose copy lands a digest different
from the source digest: the transfer is recorded `failed`, the temporary
file is removed, the destination is not written, the failure counter goes
up by one and the loop continues with the remaining items. -/
theorem runLoop_cons_fail (landed : String → Nat) (it : TransferItem)
    (rest : List TransferItem) (i : Nat) (st : LoopState) (c : Nat)
    (hany : (st.db.transfers.any fun t => t.execution_id = st.exec.id &&
      t.source_path = it.source_path && t.status = "completed") = false)
    (hsrc : st.fs it.source_path = some c) (hbad : landed it.source_path ≠ c) :
    runLoop landed Signal.run (it :: rest) i st =
      runLoop landed Signal.run rest (i + 1)
        (LoopState.mk
          (st.db.addTransfer ⟨st.exec.id, it.source_path, it.target_path, "failed"⟩)
          ((st.fs.upd (it.target_path ++ ".tmp") (some (landed it.source_path))).upd
            (it.target_path ++ ".tmp") none)
          { st.exec with
            processed_files := st.successful + (st.failed + 1),
            failed_files := st.failed + 1 }
          st.successful (st.failed + 1)
          (st.events ++ [(st.successful + st.failed + i, st.exec.total_files)])) := by
  rw [runLoop, if_neg (show ¬(Signal.run = Signal.pauseAt i) by simp)]
  rw [execute_local_transfer_checksum_fail st.db st.fs st.exec.id it
    (landed it.source_path) c hany hsrc hbad]
  rfl

/-- The loop over `pre ++ it :: post` when the copy of `it` is corrupted:
provided earlier items do not overwrite the source of `it` (so its digest
is still `c` at its turn), no ledger row or other item shares its source
path, and no item shares its target path, the final loop state contains a
`failed` transfer row for `it`, keeps its destination path absent, and has
a strictly positive failure counter. -/
theorem runLoop_corrupt_middle (landed : String → Nat)
    (pre post : List TransferItem) (it : TransferItem) (c : Nat)
    (st0 : LoopState) (i : Nat)
    (hsrc : st0.fs it.source_path = some c)
    (hbad : landed it.source_path ≠ c)
    (htgt0 : st0.fs it.target_path = none)
    (hnorec : ∀ r ∈ st0.db.transfers, r.source_path ≠ it.source_path)
    (hsrc_uniq : ∀ x ∈ pre ++ post, x.source_path ≠ it.source_path)
    (hpre_frame : ∀ x ∈ pre, x.target_path ≠ it.source_path ∧
      x.target_path ++ ".tmp" ≠ it.source_path)
    (htgt_uniq : ∀ x ∈ pre ++ post, x.target_path ≠ it.target_path) :
    (TransferRec.mk st0.exec.id it.source_path it.target_path "failed") ∈
      (runLoop landed Signal.run (pre ++ it :: post) i st0).1.db.transfers ∧
    (runLoop landed Signal.run (pre ++ it :: post) i st0).1.fs it.target_path
      = none ∧
    st0.failed + 1 ≤ (runLoop landed Signal.run (pre ++ it :: post) i st0).1.failed
    := by
  have hfsrc : (runLoop landed Signal.run pre i st0).1.fs it.source_path = some c := by
    rw [runLoop_fs_frame landed Signal.run it.source_path pre i st0 hpre_frame]
    exact hsrc
  have hfstgt : (runLoop landed Signal.run pre i st0).1.fs it.target_path = none :=
    runLoop_fs_none landed Signal.run it.target_path pre i st0 htgt0
      (fun x hx => htgt_uniq x (List.mem_append_left _ hx))
  have hnorec2 : ∀ r ∈ (runLoop landed Signal.run pre i st0).1.db.transfers,
      r.source_path ≠ it.source_path := by
    obtain ⟨l1, hl1, hl1p⟩ := runLoop_db_grow landed Signal.run pre i st0
    intro r hr
    rw [hl1] at hr
    rcases List.mem_append.mp hr with hr | hr
    · exact hnorec r hr
    · obtain ⟨-, x, hx, hxs⟩ := hl1p r hr
      rw [hxs]
      exact hsrc_uniq x (List.mem_append_left _ hx)
  have hany := transfers_any_completed_false
    (runLoop landed Signal.run pre i st0).1.db.transfers
    (runLoop landed Signal.run pre i st0).1.exec.id it.source_path hnorec2
  have hid := (runLoop_exec_const landed Signal.run pre i st0).1
  rw [runLoop_run_append landed pre (it :: post) i st0]
  rw [runLoop_cons_fail landed it post (i + pre.length)
    (runLoop landed Signal.run pre i st0).1 c hany hfsrc hbad]
  refine ⟨?_, ?_, ?_⟩
  · refine runLoop_transfers_mem landed Signal.run post (i + pre.length + 1) _ _ ?_
    rw [← hid]
    exact List.mem_append_right _ (List.mem_singleton.mpr rfl)
  · refine runLoop_fs_none landed Signal.run it.target_path post (i + pre.length + 1)
      _ ?_ (fun x hx => htgt_uniq x (List.mem_append_right _ hx))
    show (((runLoop landed Signal.run pre i st0).1.fs.upd
      (it.target_path ++ ".tmp") (some (landed it.source_path))).upd
        (it.target_path ++ ".tmp") none) it.target_path = none
    by_cases ht : it.target_path = it.target_path ++ ".tmp"
    · exact absurd ht.symm (append_tmp_ne _)
    · simp [FS.upd, ht, hfstgt]
  · refine Nat.le_trans ?_ (runLoop_failed_le landed Signal.run post
      (i + pre.length + 1) _)
    exact Nat.add_le_add_right (runLoop_failed_le landed Signal.run pre i st0) 1

/-- Claim C3 (confirmed): in a fresh uninterrupted run whose plan is
`pre ++ it :: post`, if the copy of `it` lands a digest different from its
source digest (simulated corruption), then — provided the other items
leave the source of `it` and its destination path alone and no other item
or ledger row shares its source path — the run still processes every
item, records a `failed` transfer row for `it`, leaves no file at the
final destination path of `it` (the temporary file is removed, nothing is
renamed into place), and the execution finishes `completed_with_errors`,
not `completed`. -/
theorem checksum_mismatch_fails_transfer_not_execution (job : Job)
    (sourceFiles : List String) (env : SessionEnv) (fs : FS)
    (pre post : List TransferItem) (it : TransferItem) (c : Nat)
    (hsig : env.signal = Signal.run)
    (hplan : plan_transfers job fs env.size env.planFuel sourceFiles =
      some (pre ++ it :: post))
    (hsrc : fs it.source_path = some c)
    (hbad : env.landed it.source_path ≠ c)
    (htgt0 : fs it.target_path = none)
    (hsrc_uniq : ∀ x ∈ pre ++ post, x.source_path ≠ it.source_path)
    (hpre_frame : ∀ x ∈ pre, x.target_path ≠ it.source_path ∧
      x.target_path ++ ".tmp" ≠ it.source_path)
    (htgt_uniq : ∀ x ∈ pre ++ post, x.target_path ≠ it.target_path) :
    ∃ res, execute_backup job sourceFiles env DB.empty fs = some res ∧
      (⟨0, it.source_path, it.target_path, "failed"⟩ : TransferRec) ∈
        res.db.transfers ∧
      res.fs it.target_path = none ∧
      res.exec.status = "completed_with_errors" ∧
      res.exec.processed_files = pre.length + 1 + post.length := by
  have hie : sourceFiles.isEmpty = false := by
    cases sourceFiles with
    | nil =>
      have h0 : ([] : List TransferItem) = pre ++ it :: post :=
        Option.some_inj.mp hplan
      have hl := congrArg List.length h0
      simp only [List.length_nil, List.length_append, List.length_cons] at hl
      omega
    | cons a t => rfl
  have hitne : (pre ++ it :: post).isEmpty = false := by cases pre <;> rfl
  have hfr : execute_backup job sourceFiles env DB.empty fs =
      execute_backup_rest job sourceFiles env ⟨[], [], 1⟩ fs
        ⟨0, "running", 0, 0, 0, 0, 0⟩ [] false := rfl
  have hev := execute_backup_rest_fresh_run_eq job sourceFiles env ⟨[], [], 1⟩ fs
    ⟨0, "running", 0, 0, 0, 0, 0⟩ (pre ++ it :: post) hsig hie hplan hitne
  have hmain := runLoop_corrupt_middle env.landed pre post it c
    (LoopState.mk (⟨[], [], 1⟩ : DB) fs
      (ExecutionRec.mk 0 "running" sourceFiles.length 0 0
        (((pre ++ it :: post).map (fun i => i.file_size)).sum) 0) 0 0 []) 0
    hsrc hbad htgt0 (fun r hr => absurd hr (by simp)) hsrc_uniq hpre_frame htgt_uniq
  have hcnt := runLoop_run_result env.landed (pre ++ it :: post) 0
    (LoopState.mk (⟨[], [], 1⟩ : DB) fs
      (ExecutionRec.mk 0 "running" sourceFiles.length 0 0
        (((pre ++ it :: post).map (fun i => i.file_size)).sum) 0) 0 0 [])
  have hproc := runLoop_processed_eq env.landed (pre ++ it :: post) 0
    (LoopState.mk (⟨[], [], 1⟩ : DB) fs
      (ExecutionRec.mk 0 "running" sourceFiles.length 0 0
        (((pre ++ it :: post).map (fun i => i.file_size)).sum) 0) 0 0 [])
    (by cases pre <;> simp)
  refine ⟨_, hfr.trans hev, ?_, ?_, ?_, ?_⟩
  · exact hmain.1
  · exact hmain.2.1
  · show (if (runLoop env.landed Signal.run (pre ++ it :: post) 0
        (LoopState.mk (⟨[], [], 1⟩ : DB) fs
          (ExecutionRec.mk 0 "running" sourceFiles.length 0 0
            (((pre ++ it :: post).map (fun i => i.file_size)).sum) 0) 0 0 [])).1.failed
          = 0 then "completed" else "completed_with_errors")
        = "completed_with_errors"
    have h1 := hmain.2.2
    rw [if_neg (by omega)]
  · show (runLoop env.landed Signal.run (pre ++ it :: post) 0
        (LoopState.mk (⟨[], [], 1⟩ : DB) fs
          (ExecutionRec.mk 0 "running" sourceFiles.length 0 0
            (((pre ++ it :: post).map (fun i => i.file_size)).sum) 0) 0 0
          [])).1.exec.processed_files = pre.length + 1 + post.length
    have hlen : (pre ++ it :: post).length = pre.length + 1 + post.length := by
      simp only [List.length_append, List.length_cons]
      omega
    rw [hproc, hcnt.2, hlen]
    simp

/-- Witness for C3: a fresh two-file run in which the copy of `/s/b`
lands digest 9 against source digest 5.  The run completes with
`completed_with_errors`, a `failed` row for `/s/b`, nothing at
`/b/j/b`, and both files processed. -/
theorem checksum_mismatch_fails_transfer_not_execution_witness :
    ∃ res, execute_backup jobJ srcTwo envCorruptB DB.empty fsTwo = some res ∧
      (⟨0, "/s/b", "/b/j/b", "failed"⟩ : TransferRec) ∈ res.db.transfers ∧
      res.fs "/b/j/b" = none ∧
      res.exec.status = "completed_with_errors" ∧
      res.exec.processed_files = 1 + 1 + 0 :=
  checksum_mismatch_fails_transfer_not_execution jobJ srcTwo envCorruptB fsTwo
    [⟨"/s/a", "/b/j/a", 2⟩] [] ⟨"/s/b", "/b/j/b", 2⟩ 5
    rfl rfl (by decide) (by decide) (by decide) (by decide) (by decide) (by decide)

end DailyBackup
